import Mathlib

/-
Verification of the RLCE (Route-Lock Cellular Enforcement) decision engine
from `src/demo/rcle-demo.py`.

Embedding conventions:
* Coordinates and times are exact rationals (the Python floats idealised).
* The source's Euclidean distance `dist` (`math.hypot`) is carried as its
  square (`distSq`, `projDistSq`); every comparison the source makes on
  real-valued distances is embedded as a decidable comparison on the squares
  that is proved equivalent to the corresponding `Real.sqrt` comparison
  (`withinRadius_iff_sqrt`, `sqrtAddLt_iff_sqrt`).
* Python exceptions (`min` of an empty list raises `ValueError`, indexing an
  empty list raises `IndexError`) are embedded as `none` / `Except.error`.
* Methods mutating `self` become functions threading an explicit `Engine`
  state.
-/

namespace RLCE

/-- Square of the source's `dist(a, b) = math.hypot(a0-b0, a1-b1)`. -/
def distSq (a b : ℚ × ℚ) : ℚ := (a.1 - b.1) ^ 2 + (a.2 - b.2) ^ 2

/-- The source's `clamp(v, lo, hi) = max(lo, min(hi, v))`. -/
def clampQ (v lo hi : ℚ) : ℚ := max lo (min hi v)

/-- Square of the distance returned by `project_point_to_segment(p, a, b)`:
the distance from `p` to the closest point of segment `[a, b]` (parameter
clamped to `[0, 1]`); degenerate segments fall back to `dist(p, a)`. -/
def projDistSq (p a b : ℚ × ℚ) : ℚ :=
  let abx := b.1 - a.1
  let aby := b.2 - a.2
  let ab2 := abx * abx + aby * aby
  if ab2 = 0 then distSq p a
  else
    let t := clampQ (((p.1 - a.1) * abx + (p.2 - a.2) * aby) / ab2) 0 1
    distSq p (a.1 + abx * t, a.2 + aby * t)

/-- Decides the source's `dist <= radius` on squared distances:
equals `Real.sqrt d ≤ r` whenever `0 ≤ d` (see `withinRadius_iff_sqrt`). -/
def withinRadius (d r : ℚ) : Bool :=
  decide (0 ≤ r) && decide (d ≤ r ^ 2)

/-- Decides the source's `d_new + hysteresis < d_current` on squared
distances: equals `Real.sqrt dn + h < Real.sqrt dc` whenever `0 ≤ dn`,
`0 ≤ h` (see `sqrtAddLt_iff_sqrt`). -/
def sqrtAddLt (dn h dc : ℚ) : Bool :=
  decide (0 < dc - dn - h ^ 2) && decide (4 * h ^ 2 * dn < (dc - dn - h ^ 2) ^ 2)

/-- `CellTower` dataclass of the source. -/
structure CellTower where
  id : Nat
  x : ℚ
  y : ℚ
  plmn : String
  tech : String
  arfcn : Nat
  tac : ℤ
  pci : Nat
  rogue : Bool
deriving DecidableEq

/-- `CellTower.pos`. -/
def CellTower.pos (t : CellTower) : ℚ × ℚ := (t.x, t.y)

/-- `Segment` dataclass of the source; `cal` is a Python `set` of tower ids. -/
structure Segment where
  idx : Nat
  a : ℚ × ℚ
  b : ℚ × ℚ
  cal : Finset Nat
deriving DecidableEq

instance : Inhabited Segment := ⟨⟨0, (0, 0), (0, 0), ∅⟩⟩

/-- `Segment.mid`. -/
def Segment.mid (s : Segment) : ℚ × ℚ := ((s.a.1 + s.b.1) / 2, (s.a.2 + s.b.2) / 2)

/-- `Route` dataclass of the source. -/
structure Route where
  points : List (ℚ × ℚ)
  segments : List Segment
  operator_plmn : String
deriving DecidableEq

/-- The source's module-level `ALLOWED_ARFCN` dict, accessed with
`.get(tech, set())`. -/
def ALLOWED_ARFCN (tech : String) : Finset Nat :=
  if tech = "LTE" then {66486, 66490, 66500, 5140, 1302}
  else if tech = "NR" then {523800, 627936}
  else ∅

/-- The decision labels `step` can return ("CHECK" is always overwritten
before being returned, so it is not a reachable output). -/
inductive Decision
| ALLOWED
| ALLOWEDstar
| BARRED
deriving DecidableEq

/-- One line of `RLCE.log`.  `log_event` appends an `event` line carrying
the data the source formats into the string (plus a wall-clock timestamp we
do not model); `UI.save_screenshot` and the key handlers in `main` append
pre-formatted `raw` lines directly. -/
inductive LogEntry
| event (seg : Nat) (decision : Decision) (cell : Option Nat)
| raw (line : String)
deriving DecidableEq

/-- The mutable state of the `RLCE` class. -/
structure Engine where
  route : Route
  towers : List CellTower
  grace : Nat
  hysteresis : ℚ
  poll_ms : ℚ
  last_seg_idx : Option Nat
  last_serving : Option CellTower
  last_poll_time : ℚ
  log : List LogEntry
deriving DecidableEq

/-- `RLCE.__init__` (grace=1, hysteresis=40.0, poll_ms=250). -/
def initEngine (route : Route) (towers : List CellTower) : Engine :=
  { route := route, towers := towers, grace := 1, hysteresis := 40,
    poll_ms := 250, last_seg_idx := none, last_serving := none,
    last_poll_time := 0, log := [] }

/-- `RLCE.rebuild_cal(radius_px=220.0)`: for every segment, clear `cal` and
insert the ids of the towers within `radius_px` of the segment midpoint that
are not rogue. -/
def rebuild_cal (radius_px : ℚ) (towers : List CellTower) (segs : List Segment) :
    List Segment :=
  segs.map fun seg =>
    { seg with
      cal := ((towers.filter fun tw =>
        withinRadius (distSq seg.mid tw.pos) radius_px && !tw.rogue).map
          CellTower.id).toFinset }

/-- Accumulator of Python's tuple sort followed by `dists[0]`: the
lexicographic minimum of `(distance, index)` pairs, first occurrence kept. -/
def lexMinGo (best : ℚ × Nat) : List (ℚ × Nat) → ℚ × Nat
| [] => best
| y :: ys => lexMinGo (if y.1 < best.1 ∨ (y.1 = best.1 ∧ y.2 < best.2) then y else best) ys

/-- `dists.sort(); dists[0]` of the source: `none` on the empty list (the
source would raise `IndexError`). -/
def minLex : List (ℚ × Nat) → Option (ℚ × Nat)
| [] => none
| x :: xs => some (lexMinGo x xs)

/-- `RLCE.locate_segment(p)`.  The source mutates `self.last_seg_idx` and
returns it; since the returned value always equals the stored one, we return
the new current index (`none` embeds the `IndexError` raised on an empty
segment list or an out-of-range stored index). -/
def locate_segment (segs : List Segment) (hyst : ℚ) (lastIdx : Option Nat)
    (p : ℚ × ℚ) : Option Nat :=
  match minLex (segs.map fun s => (projDistSq p s.a s.b, s.idx)) with
  | none => none
  | some nearest =>
    match lastIdx with
    | none => some nearest.2
    | some cur =>
      if cur < segs.length then
        if nearest.2 < segs.length then
          let dCur := projDistSq p (segs.getD cur default).a (segs.getD cur default).b
          let dNew := projDistSq p (segs.getD nearest.2 default).a
            (segs.getD nearest.2 default).b
          if sqrtAddLt dNew hyst dCur then some nearest.2 else some cur
        else none
      else none

/-- `RLCE.cal_window(idx)`: union of the `cal` sets of the segments with
index in `[max(0, idx-grace), min(len-1, idx+grace)]`. -/
def cal_window (segs : List Segment) (grace : Nat) (idx : Nat) : Finset Nat :=
  let lo : ℤ := max 0 ((idx : ℤ) - grace)
  let hi : ℤ := min ((segs.length : ℤ) - 1) ((idx : ℤ) + grace)
  ((List.range (hi + 1 - lo).toNat).map fun k => (lo + k).toNat).foldl
    (fun s j => s ∪ (segs.getD j default).cal) ∅

/-- Accumulator of Python's `min(iterable, key=...)`: keeps the current best
and replaces it only on a strictly smaller key, so the first minimum wins. -/
def nearestGo (p : ℚ × ℚ) (best : CellTower) : List CellTower → CellTower
| [] => best
| tw :: ts => nearestGo p (if distSq p tw.pos < distSq p best.pos then tw else best) ts

/-- `RLCE.nearest_tower(p) = min(towers, key=dist to p)`; `none` embeds the
`ValueError` Python's `min` raises on an empty tower list. -/
def nearest_tower (p : ℚ × ℚ) : List CellTower → Option CellTower
| [] => none
| t :: ts => some (nearestGo p t ts)

/-- `RLCE.legitimacy_check(cur, prev)`. -/
def legitimacy_check (operator_plmn : String) (cur : CellTower)
    (prev : Option CellTower) : Nat :=
  (if cur.plmn = operator_plmn then 1 else 0) +
  (if (match prev with
       | none => true
       | some pv => decide ((cur.tac - pv.tac).natAbs ≤ 1)) then 1 else 0) +
  (if cur.arfcn ∈ ALLOWED_ARFCN cur.tech then 1 else 0)

/-- The trimming `self.log = self.log[-8:]` performed by `log_event`. -/
def trim8 (l : List LogEntry) : List LogEntry := l.drop (l.length - 8)

/-- `RLCE.log_event`: append the event line, then keep the last 8 lines. -/
def log_event (e : Engine) (seg : Nat) (d : Decision) (cell : Option Nat) : Engine :=
  { e with log := trim8 (e.log ++ [LogEntry.event seg d cell]) }

/-- The triple `(seg_idx, decision, serving)` returned by a completed poll. -/
def StepRes : Type := Nat × Decision × Option CellTower

/-- `RLCE.step(train, now)`.  `Except.ok none` is the rate-limited early
`return None`; `Except.error ()` is a raised Python exception, paired with
the state as mutated up to the raise. -/
def step (e : Engine) (p : ℚ × ℚ) (now : ℚ) :
    Except Unit (Option StepRes) × Engine :=
  if (now - e.last_poll_time) * 1000 < e.poll_ms then (Except.ok none, e)
  else
    let e0 : Engine := { e with last_poll_time := now }
    match locate_segment e0.route.segments e0.hysteresis e0.last_seg_idx p with
    | none => (Except.error (), e0)
    | some seg_idx =>
      let e1 : Engine := { e0 with last_seg_idx := some seg_idx }
      let window := cal_window e1.route.segments e1.grace seg_idx
      match nearest_tower p e1.towers with
      | none => (Except.error (), e1)
      | some serving =>
        if serving.id ∈ window then
          let e2 : Engine := { e1 with last_serving := some serving }
          (Except.ok (some (seg_idx, Decision.ALLOWED, some serving)),
            log_event e2 seg_idx Decision.ALLOWED (some serving.id))
        else if 2 ≤ legitimacy_check e1.route.operator_plmn serving e1.last_serving
                ∧ serving.rogue = false then
          let e2 : Engine := { e1 with last_serving := some serving }
          (Except.ok (some (seg_idx, Decision.ALLOWEDstar, some serving)),
            log_event e2 seg_idx Decision.ALLOWEDstar (some serving.id))
        else
          match nearest_tower p (e1.towers.filter fun tw => tw.id ∈ window) with
          | some s2 =>
            let e2 : Engine := { e1 with last_serving := some s2 }
            (Except.ok (some (seg_idx, Decision.BARRED, some s2)),
              log_event e2 seg_idx Decision.BARRED (some s2.id))
          | none =>
            (Except.ok (some (seg_idx, Decision.BARRED, none)),
              log_event e1 seg_idx Decision.BARRED none)

/-- The `K_l` ("forced reselection") handler of `main`: locate the segment,
take the in-window towers, and if any exist store the nearest as
`last_serving`; either way append an (untrimmed) raw log line.  `dist` is
symmetric, so the handler's `dist(tw.pos(), train.pos())` key coincides with
`nearest_tower`'s. -/
def forced_reselection (e : Engine) (p : ℚ × ℚ) : Engine :=
  match locate_segment e.route.segments e.hysteresis e.last_seg_idx p with
  | none => e
  | some seg_idx =>
    let e1 : Engine := { e with last_seg_idx := some seg_idx }
    let window := cal_window e1.route.segments e1.grace seg_idx
    match nearest_tower p (e1.towers.filter fun tw => tw.id ∈ window) with
    | some s =>
      { e1 with last_serving := some s,
                log := e1.log ++ [LogEntry.raw "forced reselection"] }
    | none =>
      { e1 with log := e1.log ++ [LogEntry.raw "no in-window towers for reselection"] }

/-- The operations that append to `RLCE.log`: the engine's own `log_event`
(which trims to 8) and `UI.save_screenshot` (which appends directly). -/
inductive LogOp
| event (seg : Nat) (decision : Decision) (cell : Option Nat)
| screenshot (line : String)
deriving DecidableEq

/-- `true` iff the operation is an engine `log_event`. -/
def LogOp.isEvent : LogOp → Bool
| LogOp.event _ _ _ => true
| LogOp.screenshot _ => false

/-- Effect of one log-appending operation on `RLCE.log`. -/
def applyLogOp (l : List LogEntry) : LogOp → List LogEntry
| LogOp.event seg d c => trim8 (l ++ [LogEntry.event seg d c])
| LogOp.screenshot s => l ++ [LogEntry.raw s]

/-- A sequence of log-appending operations. -/
def runLogOps (l : List LogEntry) (ops : List LogOp) : List LogEntry :=
  ops.foldl applyLogOp l

lemma distSq_nonneg (a b : ℚ × ℚ) : 0 ≤ distSq a b := by
  unfold distSq; positivity

lemma projDistSq_nonneg (p a b : ℚ × ℚ) : 0 ≤ projDistSq p a b := by
  unfold projDistSq
  dsimp only
  split <;> exact distSq_nonneg _ _

/-- Faithfulness of `withinRadius`: it decides the source's comparison
`dist ≤ radius` (a comparison of real numbers) on the squared distance. -/
lemma withinRadius_iff_sqrt (d r : ℚ) :
    withinRadius d r = true ↔ Real.sqrt (d : ℝ) ≤ (r : ℝ) := by
  rw [Real.sqrt_le_iff]
  unfold withinRadius
  simp only [Bool.and_eq_true, decide_eq_true_eq]
  constructor
  · rintro ⟨h1, h2⟩
    refine ⟨by exact_mod_cast h1, ?_⟩
    exact_mod_cast h2
  · rintro ⟨h1, h2⟩
    refine ⟨by exact_mod_cast h1, ?_⟩
    have : (d : ℝ) ≤ ((r ^ 2 : ℚ) : ℝ) := by push_cast; exact h2
    exact_mod_cast this

/-- Faithfulness of `sqrtAddLt`: it decides the source's comparison
`d_new + hysteresis < d_current` (a comparison of real distances) on the
squared distances, for a nonnegative new distance and hysteresis. -/
lemma sqrtAddLt_iff_sqrt (dn h dc : ℚ) (hdn : 0 ≤ dn) (hh : 0 ≤ h) :
    sqrtAddLt dn h dc = true ↔
      Real.sqrt (dn : ℝ) + (h : ℝ) < Real.sqrt (dc : ℝ) := by
  have hdn' : (0 : ℝ) ≤ (dn : ℝ) := by exact_mod_cast hdn
  have hh' : (0 : ℝ) ≤ (h : ℝ) := by exact_mod_cast hh
  have hs : (0 : ℝ) ≤ Real.sqrt (dn : ℝ) := Real.sqrt_nonneg _
  rw [Real.lt_sqrt (by positivity)]
  have hsq : (Real.sqrt (dn : ℝ) + (h : ℝ)) ^ 2
      = (dn : ℝ) + (h : ℝ) ^ 2 + 2 * (h : ℝ) * Real.sqrt (dn : ℝ) := by
    have := Real.sq_sqrt hdn'
    ring_nf
    nlinarith [this]
  rw [hsq]
  have key : (dn : ℝ) + (h : ℝ) ^ 2 + 2 * (h : ℝ) * Real.sqrt (dn : ℝ) < (dc : ℝ)
      ↔ 2 * (h : ℝ) * Real.sqrt (dn : ℝ) < (dc : ℝ) - (dn : ℝ) - (h : ℝ) ^ 2 := by
    constructor <;> intro hlt <;> linarith
  rw [key]
  unfold sqrtAddLt
  simp only [Bool.and_eq_true, decide_eq_true_eq]
  constructor
  · rintro ⟨h1, h2⟩
    have h1' : (0 : ℝ) < (dc : ℝ) - (dn : ℝ) - (h : ℝ) ^ 2 := by
      have : ((0 : ℚ) : ℝ) < ((dc - dn - h ^ 2 : ℚ) : ℝ) := by exact_mod_cast h1
      push_cast at this; linarith
    have h2' : 4 * (h : ℝ) ^ 2 * (dn : ℝ) < ((dc : ℝ) - (dn : ℝ) - (h : ℝ) ^ 2) ^ 2 := by
      have : ((4 * h ^ 2 * dn : ℚ) : ℝ) < (((dc - dn - h ^ 2) ^ 2 : ℚ) : ℝ) := by
        exact_mod_cast h2
      push_cast at this; linarith
    have hsqeq : (2 * (h : ℝ) * Real.sqrt (dn : ℝ)) ^ 2 = 4 * (h : ℝ) ^ 2 * (dn : ℝ) := by
      have := Real.sq_sqrt hdn'
      ring_nf
      nlinarith [this]
    have hlt : (2 * (h : ℝ) * Real.sqrt (dn : ℝ)) ^ 2
        < ((dc : ℝ) - (dn : ℝ) - (h : ℝ) ^ 2) ^ 2 := by rw [hsqeq]; exact h2'
    exact lt_of_pow_lt_pow_left₀ 2 h1'.le hlt
  · intro hlt
    have hL : (0 : ℝ) ≤ 2 * (h : ℝ) * Real.sqrt (dn : ℝ) := by positivity
    have h1' : (0 : ℝ) < (dc : ℝ) - (dn : ℝ) - (h : ℝ) ^ 2 := lt_of_le_of_lt hL hlt
    have hsqlt : (2 * (h : ℝ) * Real.sqrt (dn : ℝ)) ^ 2
        < ((dc : ℝ) - (dn : ℝ) - (h : ℝ) ^ 2) ^ 2 :=
      pow_lt_pow_left₀ hlt hL two_ne_zero
    have hsqeq : (2 * (h : ℝ) * Real.sqrt (dn : ℝ)) ^ 2 = 4 * (h : ℝ) ^ 2 * (dn : ℝ) := by
      have := Real.sq_sqrt hdn'
      ring_nf
      nlinarith [this]
    refine ⟨?_, ?_⟩
    · exact_mod_cast (by push_cast; linarith : ((0 : ℚ) : ℝ) < ((dc - dn - h ^ 2 : ℚ) : ℝ))
    · have : 4 * (h : ℝ) ^ 2 * (dn : ℝ) < ((dc : ℝ) - (dn : ℝ) - (h : ℝ) ^ 2) ^ 2 := by
        rw [← hsqeq]; exact hsqlt
      exact_mod_cast (by push_cast; linarith :
        ((4 * h ^ 2 * dn : ℚ) : ℝ) < (((dc - dn - h ^ 2) ^ 2 : ℚ) : ℝ))

lemma trim8_length (l : List LogEntry) : (trim8 l).length = min l.length 8 := by
  unfold trim8
  rw [List.length_drop]
  omega

lemma trim8_suffix (l : List LogEntry) : List.IsSuffix (trim8 l) l :=
  List.drop_suffix _ _

/-- The accumulator of `min(..., key=dist)` returns its running best or a
list element. -/
lemma nearestGo_mem (p : ℚ × ℚ) (ts : List CellTower) (best : CellTower) :
    nearestGo p best ts = best ∨ nearestGo p best ts ∈ ts := by
  induction ts generalizing best with
  | nil => exact Or.inl rfl
  | cons x xs ih =>
    simp only [nearestGo]
    rcases ih (if distSq p x.pos < distSq p best.pos then x else best) with h | h
    · rw [h]
      split
      · exact Or.inr (List.mem_cons_self _ _)
      · exact Or.inl rfl
    · exact Or.inr (List.mem_cons_of_mem _ h)

/-- The accumulator of `min(..., key=dist)` returns a minimiser of the
distance over the running best and the remaining list. -/
lemma nearestGo_le (p : ℚ × ℚ) (ts : List CellTower) (best : CellTower) :
    distSq p (nearestGo p best ts).pos ≤ distSq p best.pos ∧
    ∀ t ∈ ts, distSq p (nearestGo p best ts).pos ≤ distSq p t.pos := by
  induction ts generalizing best with
  | nil => exact ⟨le_refl _, by simp⟩
  | cons x xs ih =>
    simp only [nearestGo]
    by_cases hx : distSq p x.pos < distSq p best.pos
    · rw [if_pos hx]
      obtain ⟨h1, h2⟩ := ih x
      refine ⟨le_trans h1 hx.le, ?_⟩
      intro t ht
      rcases List.mem_cons.1 ht with rfl | ht
      · exact h1
      · exact h2 t ht
    · rw [if_neg hx]
      obtain ⟨h1, h2⟩ := ih best
      push_neg at hx
      refine ⟨h1, ?_⟩
      intro t ht
      rcases List.mem_cons.1 ht with rfl | ht
      · exact le_trans h1 hx
      · exact h2 t ht

/-- Python's `min` keeps the first encountered minimum: everything strictly
before the returned element in the scanned list has strictly larger key. -/
lemma nearestGo_first (p : ℚ × ℚ) (ts : List CellTower) (best : CellTower) :
    nearestGo p best ts = best ∨
    ∃ pre r post, ts = pre ++ r :: post ∧ nearestGo p best ts = r ∧
      distSq p r.pos < distSq p best.pos ∧
      ∀ x ∈ pre, distSq p r.pos < distSq p x.pos := by
  induction ts generalizing best with
  | nil => exact Or.inl rfl
  | cons x xs ih =>
    simp only [nearestGo]
    by_cases hx : distSq p x.pos < distSq p best.pos
    · rw [if_pos hx]
      rcases ih x with h | ⟨pre, r, post, hts, hgo, hlt, hpre⟩
      · exact Or.inr ⟨[], x, xs, rfl, h, hx, by simp⟩
      · refine Or.inr ⟨x :: pre, r, post, by rw [hts, List.cons_append], hgo,
          lt_trans hlt hx, ?_⟩
        intro y hy
        rcases List.mem_cons.1 hy with rfl | hy
        · exact hlt
        · exact hpre y hy
    · rw [if_neg hx]
      push_neg at hx
      rcases ih best with h | ⟨pre, r, post, hts, hgo, hlt, hpre⟩
      · exact Or.inl h
      · refine Or.inr ⟨x :: pre, r, post, by rw [hts, List.cons_append], hgo, hlt, ?_⟩
        intro y hy
        rcases List.mem_cons.1 hy with rfl | hy
        · exact lt_of_lt_of_le hlt hx
        · exact hpre y hy

lemma nearest_tower_mem (p : ℚ × ℚ) (l : List CellTower) (s : CellTower)
    (h : nearest_tower p l = some s) : s ∈ l := by
  cases l with
  | nil => simp [nearest_tower] at h
  | cons t ts =>
    simp only [nearest_tower, Option.some.injEq] at h
    rcases nearestGo_mem p ts t with hm | hm
    · rw [← h, hm]; exact List.mem_cons_self _ _
    · rw [← h]; exact List.mem_cons_of_mem _ hm

lemma nearest_tower_min (p : ℚ × ℚ) (l : List CellTower) (s : CellTower)
    (h : nearest_tower p l = some s) :
    ∀ t ∈ l, distSq p s.pos ≤ distSq p t.pos := by
  cases l with
  | nil => simp [nearest_tower] at h
  | cons t ts =>
    simp only [nearest_tower, Option.some.injEq] at h
    obtain ⟨h1, h2⟩ := nearestGo_le p ts t
    intro u hu
    rcases List.mem_cons.1 hu with rfl | hu
    · rw [← h]; exact h1
    · rw [← h]; exact h2 u hu

/-- C8: a `step` call made while the elapsed time since the last poll is
below `poll_ms` is a no-op: it returns no decision for this tick and leaves
the whole engine state (segment, serving tower, poll time, log) unchanged,
so no second classification happens inside one poll interval. -/
theorem C8_cooldown_noop (e : Engine) (p : ℚ × ℚ) (now : ℚ)
    (h : (now - e.last_poll_time) * 1000 < e.poll_ms) :
    step e p now = (Except.ok none, e) := by
  unfold step
  rw [if_pos h]

/-- Witness for C8 at a concrete engine and time inside the cooldown. -/
theorem C8_cooldown_noop_witness :
    step (initEngine ⟨[], [], "310260"⟩ []) (0, 0) 0
      = (Except.ok none, initEngine ⟨[], [], "310260"⟩ []) :=
  C8_cooldown_noop _ _ _ (by norm_num [initEngine])

/-- C7 counterexample: the claim quantifies over every sequence of
operations that appends to the log, and `UI.save_screenshot` appends without
trimming; nine screenshot appends leave nine entries, exceeding the bound 8. -/
theorem C7_counterexample :
    8 < (runLogOps [] (List.replicate 9 (LogOp.screenshot "saved"))).length := by
  decide

/-- C7 (amended): the bound holds for the engine's own `log_event` appends:
any sequence of `log_event` operations keeps the log at ≤ 8 entries, one
`log_event` leaves exactly `min (previous + 1) 8` entries, and the result is
a suffix of the old log plus the new line (oldest entries evicted first);
direct appends such as `UI.save_screenshot` are not trimmed and can push the
log beyond 8 until the next `log_event`. -/
theorem C7_log_event_bound (l : List LogEntry) (ops : List LogOp)
    (seg : Nat) (d : Decision) (c : Option Nat)
    (hl : l.length ≤ 8) (hev : ∀ op ∈ ops, op.isEvent = true) :
    (runLogOps l ops).length ≤ 8 ∧
    (applyLogOp l (LogOp.event seg d c)).length = min (l.length + 1) 8 ∧
    List.IsSuffix (applyLogOp l (LogOp.event seg d c)) (l ++ [LogEntry.event seg d c]) := by
  refine ⟨?_, ?_, trim8_suffix _⟩
  · induction ops generalizing l with
    | nil => exact hl
    | cons op rest ih =>
      have hop := hev op (List.mem_cons_self _ _)
      cases op with
      | event s dd cc =>
        simp only [runLogOps, List.foldl_cons]
        refine ih _ ?_ (fun o ho => hev o (List.mem_cons_of_mem _ ho))
        simp only [applyLogOp, trim8_length, List.length_append, List.length_cons,
          List.length_nil]
        omega
      | screenshot s => simp [LogOp.isEvent] at hop
  · simp only [applyLogOp, trim8_length, List.length_append, List.length_cons,
      List.length_nil]

/-- Witness for C7's amended bound at a concrete log and operation list. -/
theorem C7_log_event_bound_witness :
    (runLogOps [] [LogOp.event 1 Decision.ALLOWED (some 3)]).length ≤ 8 ∧
    (applyLogOp [] (LogOp.event 0 Decision.BARRED none)).length = min 1 8 ∧
    List.IsSuffix (applyLogOp [] (LogOp.event 0 Decision.BARRED none))
      ([] ++ [LogEntry.event 0 Decision.BARRED none]) :=
  C7_log_event_bound [] [LogOp.event 1 Decision.ALLOWED (some 3)] 0
    Decision.BARRED none (by decide) (by decide)

/-- C9: the serving candidate is the tower at minimum distance from the
vehicle, ties broken by input iteration order (first-encountered minimum);
in particular for two equidistant towers in order `[A, B]` the candidate is
`A`. -/
theorem C9_nearest_tower_first_min (p : ℚ × ℚ) (towers : List CellTower)
    (hne : towers ≠ []) :
    (∃ tw pre post, nearest_tower p towers = some tw ∧
        towers = pre ++ tw :: post ∧
        (∀ t ∈ towers, distSq p tw.pos ≤ distSq p t.pos) ∧
        (∀ t ∈ pre, distSq p tw.pos < distSq p t.pos)) ∧
    ∀ A B : CellTower, distSq p A.pos = distSq p B.pos →
      nearest_tower p [A, B] = some A := by
  constructor
  · cases towers with
    | nil => exact absurd rfl hne
    | cons t ts =>
      simp only [nearest_tower]
      obtain ⟨hle, hlist⟩ := nearestGo_le p ts t
      rcases nearestGo_first p ts t with h | ⟨pre, r, post, hts, hgo, hlt, hpre⟩
      · refine ⟨t, [], ts, by rw [h], rfl, ?_, by simp⟩
        intro u hu
        rcases List.mem_cons.1 hu with rfl | hu
        · exact le_refl _
        · rw [h] at hlist
          exact hlist u hu
      · refine ⟨r, t :: pre, post, by rw [hgo], by rw [hts, List.cons_append], ?_, ?_⟩
        · intro u hu
          rw [hgo] at hle hlist
          rcases List.mem_cons.1 hu with rfl | hu
          · exact hle
          · exact hlist u hu
        · intro u hu
          rcases List.mem_cons.1 hu with rfl | hu
          · exact hlt
          · exact hpre u hu
  · intro A B hAB
    simp only [nearest_tower, nearestGo, Option.some.injEq]
    rw [if_neg (by rw [← hAB]; exact lt_irrefl _)]

/-- Witness for C9 at two concrete equidistant towers in order `[A, B]`. -/
theorem C9_nearest_tower_first_min_witness :
    (∃ tw pre post,
        nearest_tower (0, 0)
          [⟨0, 1, 0, "310260", "LTE", 66486, 100, 1, false⟩,
           ⟨1, 0, 1, "310260", "LTE", 66486, 100, 2, false⟩] = some tw ∧
        [⟨0, 1, 0, "310260", "LTE", 66486, 100, 1, false⟩,
           (⟨1, 0, 1, "310260", "LTE", 66486, 100, 2, false⟩ : CellTower)] =
          pre ++ tw :: post ∧
        (∀ t ∈ [⟨0, 1, 0, "310260", "LTE", 66486, 100, 1, false⟩,
           (⟨1, 0, 1, "310260", "LTE", 66486, 100, 2, false⟩ : CellTower)],
          distSq (0, 0) tw.pos ≤ distSq (0, 0) t.pos) ∧
        (∀ t ∈ pre, distSq (0, 0) tw.pos < distSq (0, 0) t.pos)) ∧
    ∀ A B : CellTower, distSq (0, 0) A.pos = distSq (0, 0) B.pos →
      nearest_tower (0, 0) [A, B] = some A :=
  C9_nearest_tower_first_min (0, 0) _ (List.cons_ne_nil _ _)

/-- C10: once `last_serving` holds a tower, neither `step` (which only
overwrites it with a determined non-empty serving tower) nor the forced
reselection handler (which only assigns from a non-empty candidate set)
ever resets it to `none`. -/
theorem C10_last_serving_monotone (e : Engine) (p : ℚ × ℚ) (now : ℚ)
    (h : e.last_serving ≠ none) :
    (step e p now).2.last_serving ≠ none ∧
    (forced_reselection e p).last_serving ≠ none := by
  constructor
  · unfold step
    split
    · exact h
    · dsimp only
      split
      · exact h
      · split
        · exact h
        · split
          · simp [log_event]
          · split
            · simp [log_event]
            · split
              · simp [log_event]
              · simpa [log_event] using h
  · unfold forced_reselection
    split
    · exact h
    · dsimp only
      split
      · simp
      · simpa using h

/-- Witness for C10 at a concrete engine whose `last_serving` is set, inside
the cooldown. -/
theorem C10_last_serving_monotone_witness :
    (step { initEngine ⟨[], [], "310260"⟩ [] with
        last_serving := some ⟨0, 0, 0, "310260", "LTE", 66486, 100, 1, false⟩ }
      (0, 0) 0).2.last_serving ≠ none ∧
    (forced_reselection { initEngine ⟨[], [], "310260"⟩ [] with
        last_serving := some ⟨0, 0, 0, "310260", "LTE", 66486, 100, 1, false⟩ }
      (0, 0)).last_serving ≠ none :=
  C10_last_serving_monotone _ _ _ (by simp [initEngine])

/-- C1 counterexample: at an explicit empty world (no towers, no segments)
and a poll outside the cooldown, `step` ends in a raised error, not in a
defined "no decision / no serving tower" result. -/
theorem C1_counterexample :
    (step (initEngine ⟨[], [], "310260"⟩ []) (0, 0) 1).1 = Except.error () := by
  norm_num [step, initEngine, locate_segment, minLex]

/-- C1 (amended): a poll outside the `poll_ms` cooldown with an empty world
(zero towers or zero route segments) makes `step` fail with a raised error
(`IndexError` from the segment locator or `ValueError` from `min` over the
empty tower list) rather than return a defined result. -/
theorem C1_empty_world_error (e : Engine) (p : ℚ × ℚ) (now : ℚ)
    (hcool : ¬ (now - e.last_poll_time) * 1000 < e.poll_ms)
    (hempty : e.towers = [] ∨ e.route.segments = []) :
    (step e p now).1 = Except.error () := by
  unfold step
  rw [if_neg hcool]
  dsimp only
  rcases hempty with ht | hs
  · cases hloc : locate_segment e.route.segments e.hysteresis e.last_seg_idx p with
    | none => rfl
    | some seg =>
      dsimp only
      rw [ht]
      rfl
  · have hloc : locate_segment e.route.segments e.hysteresis e.last_seg_idx p = none := by
      rw [hs]
      rfl
    rw [hloc]

/-- Witness for C1's amended statement at the same explicit empty world. -/
theorem C1_empty_world_error_witness :
    (step (initEngine ⟨[], [], "310260"⟩ []) (0, 0) 1).1 = Except.error () :=
  C1_empty_world_error _ _ _ (by norm_num [initEngine]) (Or.inl rfl)

/-- Membership in the calibration set `rebuild_cal` computes for a segment:
exactly the ids of non-rogue towers within the radius of the midpoint. -/
lemma rebuild_cal_mem (r : ℚ) (towers : List CellTower) (segs : List Segment)
    (seg : Segment) (hseg : seg ∈ rebuild_cal r towers segs) (tid : Nat) :
    tid ∈ seg.cal ↔ ∃ tw ∈ towers, tw.id = tid ∧
      withinRadius (distSq seg.mid tw.pos) r = true ∧ tw.rogue = false := by
  simp only [rebuild_cal, List.mem_map] at hseg
  obtain ⟨s0, hs0, rfl⟩ := hseg
  simp only [Segment.mid, List.mem_toFinset, List.mem_map, List.mem_filter,
    Bool.and_eq_true, Bool.not_eq_true']
  constructor
  · rintro ⟨tw, ⟨htw, hcond, hrogue⟩, rfl⟩
    exact ⟨tw, htw, rfl, hcond, hrogue⟩
  · rintro ⟨tw, htw, rfl, hcond, hrogue⟩
    exact ⟨tw, ⟨htw, hcond, hrogue⟩, rfl⟩

/-- Any id in a rebuilt calibration set belongs to some non-rogue tower of
the tower set the calibration was built from. -/
lemma rebuild_cal_sound (r : ℚ) (towers : List CellTower) (segs : List Segment)
    (seg : Segment) (hseg : seg ∈ rebuild_cal r towers segs) (tid : Nat)
    (htid : tid ∈ seg.cal) : ∃ tw ∈ towers, tw.id = tid ∧ tw.rogue = false := by
  obtain ⟨tw, htw, h1, _, h3⟩ := (rebuild_cal_mem r towers segs seg hseg tid).1 htid
  exact ⟨tw, htw, h1, h3⟩

/-- C2: after `rebuild_cal` with radius `r`, every segment's `cal` set is
exactly the set of ids of towers within distance `r` of that segment's
midpoint whose rogue flag is false, regardless of the prior contents; under
unique tower ids a rogue tower is never a member of any `cal` set, and
running the builder twice on unchanged inputs equals running it once. -/
theorem C2_rebuild_cal (r : ℚ) (towers : List CellTower) (segs : List Segment)
    (hid : (towers.map CellTower.id).Nodup) :
    (∀ seg ∈ rebuild_cal r towers segs, ∀ tid : Nat,
        tid ∈ seg.cal ↔ ∃ tw ∈ towers, tw.id = tid ∧
          Real.sqrt ((distSq seg.mid tw.pos : ℚ) : ℝ) ≤ (r : ℝ) ∧ tw.rogue = false) ∧
    (∀ seg ∈ rebuild_cal r towers segs, ∀ tw ∈ towers, tw.rogue = true →
        tw.id ∉ seg.cal) ∧
    rebuild_cal r towers (rebuild_cal r towers segs) = rebuild_cal r towers segs := by
  refine ⟨?_, ?_, ?_⟩
  · intro seg hseg tid
    rw [rebuild_cal_mem r towers segs seg hseg tid]
    constructor
    · rintro ⟨tw, htw, h1, h2, h3⟩
      exact ⟨tw, htw, h1, (withinRadius_iff_sqrt _ _).1 h2, h3⟩
    · rintro ⟨tw, htw, h1, h2, h3⟩
      exact ⟨tw, htw, h1, (withinRadius_iff_sqrt _ _).2 h2, h3⟩
  · intro seg hseg tw htw hrog hmem
    obtain ⟨tw', htw', hideq, hrogue'⟩ := rebuild_cal_sound r towers segs seg hseg tw.id hmem
    have heq : tw' = tw := List.inj_on_of_nodup_map hid htw' htw hideq
    rw [heq, hrog] at hrogue'
    exact absurd hrogue' (by simp)
  · unfold rebuild_cal
    rw [List.map_map]
    apply List.map_congr_left
    intro s _
    rfl

/-- Witness for C2 at a concrete tower set and one-segment route. -/
theorem C2_rebuild_cal_witness :
    (∀ seg ∈ rebuild_cal 220 [(⟨0, 0, 0, "310260", "LTE", 66486, 100, 1, false⟩ : CellTower)]
        [(⟨0, (0, 0), (1, 0), ∅⟩ : Segment)], ∀ tid : Nat,
        tid ∈ seg.cal ↔
          ∃ tw ∈ [(⟨0, 0, 0, "310260", "LTE", 66486, 100, 1, false⟩ : CellTower)],
            tw.id = tid ∧
            Real.sqrt ((distSq seg.mid tw.pos : ℚ) : ℝ) ≤ ((220 : ℚ) : ℝ) ∧
            tw.rogue = false) ∧
    (∀ seg ∈ rebuild_cal 220 [(⟨0, 0, 0, "310260", "LTE", 66486, 100, 1, false⟩ : CellTower)]
        [(⟨0, (0, 0), (1, 0), ∅⟩ : Segment)],
      ∀ tw ∈ [(⟨0, 0, 0, "310260", "LTE", 66486, 100, 1, false⟩ : CellTower)],
        tw.rogue = true → tw.id ∉ seg.cal) ∧
    rebuild_cal 220 [(⟨0, 0, 0, "310260", "LTE", 66486, 100, 1, false⟩ : CellTower)]
        (rebuild_cal 220 [(⟨0, 0, 0, "310260", "LTE", 66486, 100, 1, false⟩ : CellTower)]
          [(⟨0, (0, 0), (1, 0), ∅⟩ : Segment)])
      = rebuild_cal 220 [(⟨0, 0, 0, "310260", "LTE", 66486, 100, 1, false⟩ : CellTower)]
          [(⟨0, (0, 0), (1, 0), ∅⟩ : Segment)] :=
  C2_rebuild_cal 220 _ _ (by decide)

/-- The `candidates` list built by the BARRED branch of `step` and by the
forced-reselection handler: the towers whose id lies in the calibration
window of segment `seg`. -/
def window_candidates (e : Engine) (seg : Nat) : List CellTower :=
  e.towers.filter fun tw => tw.id ∈ cal_window e.route.segments e.grace seg

lemma mem_foldl_union (f : Nat → Finset Nat) (js : List Nat) (init : Finset Nat)
    (a : Nat) :
    a ∈ js.foldl (fun s j => s ∪ f j) init ↔ a ∈ init ∨ ∃ j ∈ js, a ∈ f j := by
  induction js generalizing init with
  | nil => simp
  | cons j js ih =>
    simp only [List.foldl_cons, ih, Finset.mem_union]
    constructor
    · rintro ((h | h) | ⟨j', hj', h⟩)
      · exact Or.inl h
      · exact Or.inr ⟨j, List.mem_cons_self _ _, h⟩
      · exact Or.inr ⟨j', List.mem_cons_of_mem _ hj', h⟩
    · rintro (h | ⟨j', hj', h⟩)
      · exact Or.inl (Or.inl h)
      · rcases List.mem_cons.1 hj' with rfl | hj'
        · exact Or.inl (Or.inr h)
        · exact Or.inr ⟨j', hj', h⟩

/-- Every id in a calibration window comes from the `cal` set of some
segment of the route. -/
lemma mem_cal_window (segs : List Segment) (grace idx tid : Nat)
    (h : tid ∈ cal_window segs grace idx) : ∃ seg ∈ segs, tid ∈ seg.cal := by
  unfold cal_window at h
  rw [mem_foldl_union] at h
  rcases h with h | ⟨j, _, h⟩
  · exact absurd h (Finset.not_mem_empty _)
  · by_cases hlt : j < segs.length
    · refine ⟨segs.getD j default, ?_, h⟩
      rw [List.getD_eq_getElem _ _ hlt]
      exact List.getElem_mem _
    · rw [List.getD_eq_default _ _ (le_of_not_lt hlt)] at h
      exact absurd h (Finset.not_mem_empty _)

/-- Evaluation of `step` outside the cooldown down to the ALLOWED* branch:
candidate not in the window, score at least 2, candidate not rogue. -/
lemma step_star_eq (e : Engine) (p : ℚ × ℚ) (now : ℚ) (seg : Nat) (s0 : CellTower)
    (hcool : ¬ (now - e.last_poll_time) * 1000 < e.poll_ms)
    (hloc : locate_segment e.route.segments e.hysteresis e.last_seg_idx p = some seg)
    (hnear : nearest_tower p e.towers = some s0)
    (hnw : s0.id ∉ cal_window e.route.segments e.grace seg)
    (hstar : 2 ≤ legitimacy_check e.route.operator_plmn s0 e.last_serving ∧
      s0.rogue = false) :
    step e p now = (Except.ok (some (seg, Decision.ALLOWEDstar, some s0)),
      log_event { e with
        last_poll_time := now
        last_seg_idx := some seg
        last_serving := some s0 } seg Decision.ALLOWEDstar (some s0.id)) := by
  unfold step
  rw [if_neg hcool]
  dsimp only
  rw [hloc]
  dsimp only
  rw [hnear]
  dsimp only
  rw [if_neg hnw, if_pos hstar]

/-- Evaluation of `step` outside the cooldown down to the BARRED branch. -/
lemma step_barred_eq (e : Engine) (p : ℚ × ℚ) (now : ℚ) (seg : Nat) (s0 : CellTower)
    (hcool : ¬ (now - e.last_poll_time) * 1000 < e.poll_ms)
    (hloc : locate_segment e.route.segments e.hysteresis e.last_seg_idx p = some seg)
    (hnear : nearest_tower p e.towers = some s0)
    (hnw : s0.id ∉ cal_window e.route.segments e.grace seg)
    (hbar : ¬ (2 ≤ legitimacy_check e.route.operator_plmn s0 e.last_serving ∧
      s0.rogue = false)) :
    step e p now =
      match nearest_tower p (window_candidates e seg) with
      | some s2 =>
        (Except.ok (some (seg, Decision.BARRED, some s2)),
          log_event { e with
            last_poll_time := now
            last_seg_idx := some seg
            last_serving := some s2 } seg Decision.BARRED (some s2.id))
      | none =>
        (Except.ok (some (seg, Decision.BARRED, none)),
          log_event { e with last_poll_time := now, last_seg_idx := some seg }
            seg Decision.BARRED none) := by
  unfold step
  rw [if_neg hcool]
  dsimp only
  rw [hloc]
  dsimp only
  rw [hnear]
  dsimp only
  rw [if_neg hnw, if_neg hbar]
  rfl

/-- C4: when the serving candidate's id is not in the calibration window,
the legitimacy score is the sum of three 0/1 checks (candidate PLMN equals
the route's operator PLMN; no prior accepted tower or absolute TAC
difference at most 1; candidate ARFCN in the allowed-channel set of its
technology), hence an integer in [0,3]; and score at least 2 with a
non-rogue candidate always yields ALLOWED*, never BARRED. -/
theorem C4_legitimacy_score (e : Engine) (p : ℚ × ℚ) (now : ℚ) (seg : Nat)
    (s0 : CellTower)
    (hcool : ¬ (now - e.last_poll_time) * 1000 < e.poll_ms)
    (hloc : locate_segment e.route.segments e.hysteresis e.last_seg_idx p = some seg)
    (hnear : nearest_tower p e.towers = some s0)
    (hnw : s0.id ∉ cal_window e.route.segments e.grace seg) :
    (∃ i1 i2 i3 : ℕ, i1 ≤ 1 ∧ i2 ≤ 1 ∧ i3 ≤ 1 ∧
        legitimacy_check e.route.operator_plmn s0 e.last_serving = i1 + i2 + i3 ∧
        (i1 = 1 ↔ s0.plmn = e.route.operator_plmn) ∧
        (i2 = 1 ↔ (e.last_serving = none ∨
          ∃ pv, e.last_serving = some pv ∧ (s0.tac - pv.tac).natAbs ≤ 1)) ∧
        (i3 = 1 ↔ s0.arfcn ∈ ALLOWED_ARFCN s0.tech)) ∧
    legitimacy_check e.route.operator_plmn s0 e.last_serving ≤ 3 ∧
    (2 ≤ legitimacy_check e.route.operator_plmn s0 e.last_serving ∧ s0.rogue = false →
      (step e p now).1 = Except.ok (some (seg, Decision.ALLOWEDstar, some s0))) := by
  refine ⟨?_, ?_, ?_⟩
  · refine ⟨if s0.plmn = e.route.operator_plmn then 1 else 0,
      if (match e.last_serving with
          | none => true
          | some pv => decide ((s0.tac - pv.tac).natAbs ≤ 1)) then 1 else 0,
      if s0.arfcn ∈ ALLOWED_ARFCN s0.tech then 1 else 0,
      ?_, ?_, ?_, rfl, ?_, ?_, ?_⟩
    · split <;> omega
    · split <;> omega
    · split <;> omega
    · split <;> simp_all
    · cases hls : e.last_serving with
      | none => simp
      | some pv =>
        by_cases habs : (s0.tac - pv.tac).natAbs ≤ 1 <;> simp [habs]
    · split <;> simp_all
  · unfold legitimacy_check
    split_ifs <;> omega
  · intro hstar
    rw [step_star_eq e p now seg s0 hcool hloc hnear hnw hstar]

/-- Witness for C4 at a concrete engine whose sole tower has an empty
calibration window. -/
theorem C4_legitimacy_score_witness :
    (∃ i1 i2 i3 : ℕ, i1 ≤ 1 ∧ i2 ≤ 1 ∧ i3 ≤ 1 ∧
        legitimacy_check
          (initEngine ⟨[], [⟨0, (0, 0), (4, 0), ∅⟩], "310260"⟩
            [⟨0, 0, 0, "310260", "LTE", 66486, 100, 1, false⟩]).route.operator_plmn
          ⟨0, 0, 0, "310260", "LTE", 66486, 100, 1, false⟩
          (initEngine ⟨[], [⟨0, (0, 0), (4, 0), ∅⟩], "310260"⟩
            [⟨0, 0, 0, "310260", "LTE", 66486, 100, 1, false⟩]).last_serving
          = i1 + i2 + i3 ∧
        (i1 = 1 ↔ (⟨0, 0, 0, "310260", "LTE", 66486, 100, 1, false⟩ : CellTower).plmn =
          (initEngine ⟨[], [⟨0, (0, 0), (4, 0), ∅⟩], "310260"⟩
            [⟨0, 0, 0, "310260", "LTE", 66486, 100, 1, false⟩]).route.operator_plmn) ∧
        (i2 = 1 ↔ ((initEngine ⟨[], [⟨0, (0, 0), (4, 0), ∅⟩], "310260"⟩
            [⟨0, 0, 0, "310260", "LTE", 66486, 100, 1, false⟩]).last_serving = none ∨
          ∃ pv, (initEngine ⟨[], [⟨0, (0, 0), (4, 0), ∅⟩], "310260"⟩
            [⟨0, 0, 0, "310260", "LTE", 66486, 100, 1, false⟩]).last_serving = some pv ∧
            ((⟨0, 0, 0, "310260", "LTE", 66486, 100, 1, false⟩ : CellTower).tac - pv.tac).natAbs ≤ 1)) ∧
        (i3 = 1 ↔ (⟨0, 0, 0, "310260", "LTE", 66486, 100, 1, false⟩ : CellTower).arfcn ∈
          ALLOWED_ARFCN (⟨0, 0, 0, "310260", "LTE", 66486, 100, 1, false⟩ : CellTower).tech)) ∧
    legitimacy_check
      (initEngine ⟨[], [⟨0, (0, 0), (4, 0), ∅⟩], "310260"⟩
        [⟨0, 0, 0, "310260", "LTE", 66486, 100, 1, false⟩]).route.operator_plmn
      ⟨0, 0, 0, "310260", "LTE", 66486, 100, 1, false⟩
      (initEngine ⟨[], [⟨0, (0, 0), (4, 0), ∅⟩], "310260"⟩
        [⟨0, 0, 0, "310260", "LTE", 66486, 100, 1, false⟩]).last_serving ≤ 3 ∧
    (2 ≤ legitimacy_check
        (initEngine ⟨[], [⟨0, (0, 0), (4, 0), ∅⟩], "310260"⟩
          [⟨0, 0, 0, "310260", "LTE", 66486, 100, 1, false⟩]).route.operator_plmn
        ⟨0, 0, 0, "310260", "LTE", 66486, 100, 1, false⟩
        (initEngine ⟨[], [⟨0, (0, 0), (4, 0), ∅⟩], "310260"⟩
          [⟨0, 0, 0, "310260", "LTE", 66486, 100, 1, false⟩]).last_serving ∧
      (⟨0, 0, 0, "310260", "LTE", 66486, 100, 1, false⟩ : CellTower).rogue = false →
      (step (initEngine ⟨[], [⟨0, (0, 0), (4, 0), ∅⟩], "310260"⟩
          [⟨0, 0, 0, "310260", "LTE", 66486, 100, 1, false⟩]) (0, 0) 1).1 =
        Except.ok (some (0, Decision.ALLOWEDstar,
          some ⟨0, 0, 0, "310260", "LTE", 66486, 100, 1, false⟩))) :=
  C4_legitimacy_score _ (0, 0) 1 0 _ (by norm_num [initEngine]) rfl rfl (by decide)

/-- C5: when a poll's decision is BARRED, the engine replaces the serving
candidate with the nearest in-window tower when any window member exists;
with no window member the returned serving tower is `none`, while
`last_serving` is retained unchanged in the engine state and is not
reported as currently serving. -/
theorem C5_barred_reselection (e : Engine) (p : ℚ × ℚ) (now : ℚ) (seg : Nat)
    (s0 : CellTower)
    (hcool : ¬ (now - e.last_poll_time) * 1000 < e.poll_ms)
    (hloc : locate_segment e.route.segments e.hysteresis e.last_seg_idx p = some seg)
    (hnear : nearest_tower p e.towers = some s0)
    (hnw : s0.id ∉ cal_window e.route.segments e.grace seg)
    (hbar : ¬ (2 ≤ legitimacy_check e.route.operator_plmn s0 e.last_serving ∧
      s0.rogue = false)) :
    (window_candidates e seg ≠ [] →
      ∃ s2, nearest_tower p (window_candidates e seg) = some s2 ∧
        (step e p now).1 = Except.ok (some (seg, Decision.BARRED, some s2)) ∧
        (step e p now).2.last_serving = some s2 ∧
        s2 ∈ window_candidates e seg ∧
        ∀ c ∈ window_candidates e seg, distSq p s2.pos ≤ distSq p c.pos) ∧
    (window_candidates e seg = [] →
      (step e p now).1 = Except.ok (some (seg, Decision.BARRED, none)) ∧
      (step e p now).2.last_serving = e.last_serving) := by
  have hstep := step_barred_eq e p now seg s0 hcool hloc hnear hnw hbar
  constructor
  · intro hne
    obtain ⟨s2, hs2⟩ : ∃ s2, nearest_tower p (window_candidates e seg) = some s2 := by
      cases hcand : window_candidates e seg with
      | nil => exact absurd hcand hne
      | cons t ts => exact ⟨nearestGo p t ts, rfl⟩
    rw [hs2] at hstep
    exact ⟨s2, hs2, by rw [hstep], by rw [hstep]; rfl,
      nearest_tower_mem _ _ _ hs2, nearest_tower_min _ _ _ hs2⟩
  · intro hnil
    have hs2 : nearest_tower p (window_candidates e seg) = none := by rw [hnil]; rfl
    rw [hs2] at hstep
    exact ⟨by rw [hstep], by rw [hstep]; rfl⟩

/-- Witness for C5 at a concrete engine whose nearest tower is rogue and
out of window while a second tower is in the window. -/
theorem C5_barred_reselection_witness :
    (window_candidates (initEngine ⟨[], [⟨0, (0, 0), (4, 0), {1}⟩], "310260"⟩
        [⟨0, 0, 0, "311480", "LTE", 1492, 100, 1, true⟩,
         ⟨1, 1, 0, "310260", "LTE", 66486, 100, 2, false⟩]) 0 ≠ [] →
      ∃ s2, nearest_tower (0, 0)
          (window_candidates (initEngine ⟨[], [⟨0, (0, 0), (4, 0), {1}⟩], "310260"⟩
            [⟨0, 0, 0, "311480", "LTE", 1492, 100, 1, true⟩,
             ⟨1, 1, 0, "310260", "LTE", 66486, 100, 2, false⟩]) 0) = some s2 ∧
        (step (initEngine ⟨[], [⟨0, (0, 0), (4, 0), {1}⟩], "310260"⟩
            [⟨0, 0, 0, "311480", "LTE", 1492, 100, 1, true⟩,
             ⟨1, 1, 0, "310260", "LTE", 66486, 100, 2, false⟩]) (0, 0) 1).1 =
          Except.ok (some (0, Decision.BARRED, some s2)) ∧
        (step (initEngine ⟨[], [⟨0, (0, 0), (4, 0), {1}⟩], "310260"⟩
            [⟨0, 0, 0, "311480", "LTE", 1492, 100, 1, true⟩,
             ⟨1, 1, 0, "310260", "LTE", 66486, 100, 2, false⟩]) (0, 0) 1).2.last_serving =
          some s2 ∧
        s2 ∈ window_candidates (initEngine ⟨[], [⟨0, (0, 0), (4, 0), {1}⟩], "310260"⟩
            [⟨0, 0, 0, "311480", "LTE", 1492, 100, 1, true⟩,
             ⟨1, 1, 0, "310260", "LTE", 66486, 100, 2, false⟩]) 0 ∧
        ∀ c ∈ window_candidates (initEngine ⟨[], [⟨0, (0, 0), (4, 0), {1}⟩], "310260"⟩
            [⟨0, 0, 0, "311480", "LTE", 1492, 100, 1, true⟩,
             ⟨1, 1, 0, "310260", "LTE", 66486, 100, 2, false⟩]) 0,
          distSq (0, 0) s2.pos ≤ distSq (0, 0) c.pos) ∧
    (window_candidates (initEngine ⟨[], [⟨0, (0, 0), (4, 0), {1}⟩], "310260"⟩
        [⟨0, 0, 0, "311480", "LTE", 1492, 100, 1, true⟩,
         ⟨1, 1, 0, "310260", "LTE", 66486, 100, 2, false⟩]) 0 = [] →
      (step (initEngine ⟨[], [⟨0, (0, 0), (4, 0), {1}⟩], "310260"⟩
          [⟨0, 0, 0, "311480", "LTE", 1492, 100, 1, true⟩,
           ⟨1, 1, 0, "310260", "LTE", 66486, 100, 2, false⟩]) (0, 0) 1).1 =
        Except.ok (some (0, Decision.BARRED, none)) ∧
      (step (initEngine ⟨[], [⟨0, (0, 0), (4, 0), {1}⟩], "310260"⟩
          [⟨0, 0, 0, "311480", "LTE", 1492, 100, 1, true⟩,
           ⟨1, 1, 0, "310260", "LTE", 66486, 100, 2, false⟩]) (0, 0) 1).2.last_serving =
        (initEngine ⟨[], [⟨0, (0, 0), (4, 0), {1}⟩], "310260"⟩
          [⟨0, 0, 0, "311480", "LTE", 1492, 100, 1, true⟩,
           ⟨1, 1, 0, "310260", "LTE", 66486, 100, 2, false⟩]).last_serving) :=
  C5_barred_reselection _ (0, 0) 1 0
    ⟨0, 0, 0, "311480", "LTE", 1492, 100, 1, true⟩ (by norm_num [initEngine]) rfl
    (by norm_num [nearest_tower, nearestGo, distSq, CellTower.pos, initEngine])
    (by decide) (by decide)

/-- C6: for a BARRED poll evaluated with calibration built by `rebuild_cal`
from the current tower set (whose ids are unique), the reselected serving
tower, when one exists, is never a rogue tower and its id is always a
member of the current calibration window. -/
theorem C6_barred_reselection_trusted (e : Engine) (p : ℚ × ℚ) (now : ℚ) (seg : Nat)
    (s0 s2 : CellTower)
    (hcool : ¬ (now - e.last_poll_time) * 1000 < e.poll_ms)
    (hloc : locate_segment e.route.segments e.hysteresis e.last_seg_idx p = some seg)
    (hnear : nearest_tower p e.towers = some s0)
    (hnw : s0.id ∉ cal_window e.route.segments e.grace seg)
    (hbar : ¬ (2 ≤ legitimacy_check e.route.operator_plmn s0 e.last_serving ∧
      s0.rogue = false))
    (hsel : nearest_tower p (window_candidates e seg) = some s2)
    (hcal : ∃ r segs0, e.route.segments = rebuild_cal r e.towers segs0)
    (hid : (e.towers.map CellTower.id).Nodup) :
    (step e p now).1 = Except.ok (some (seg, Decision.BARRED, some s2)) ∧
    s2.rogue = false ∧ s2.id ∈ cal_window e.route.segments e.grace seg := by
  have hmem := nearest_tower_mem _ _ _ hsel
  have hmem2 : s2 ∈ e.towers ∧ s2.id ∈ cal_window e.route.segments e.grace seg := by
    unfold window_candidates at hmem
    have hf := List.mem_filter.1 hmem
    exact ⟨hf.1, by simpa using hf.2⟩
  obtain ⟨r, segs0, hsegs⟩ := hcal
  obtain ⟨sg, hsg, htid⟩ := mem_cal_window _ _ _ _ hmem2.2
  rw [hsegs] at hsg
  obtain ⟨tw, htw, hideq, hrogue⟩ := rebuild_cal_sound r e.towers segs0 sg hsg s2.id htid
  have heq : tw = s2 := List.inj_on_of_nodup_map hid htw hmem2.1 hideq
  refine ⟨?_, by rw [← heq]; exact hrogue, hmem2.2⟩
  have hstep := step_barred_eq e p now seg s0 hcool hloc hnear hnw hbar
  rw [hsel] at hstep
  rw [hstep]

/-- Witness for C6 at a concrete engine whose route was calibrated by
`rebuild_cal` from its two towers, the nearest of which is rogue. -/
theorem C6_barred_reselection_trusted_witness :
    (step (initEngine ⟨[], [⟨0, (0, 0), (4, 0), {1}⟩], "310260"⟩
        [⟨0, 0, 0, "311480", "LTE", 1492, 100, 1, true⟩,
         ⟨1, 1, 0, "310260", "LTE", 66486, 100, 2, false⟩]) (0, 0) 1).1 =
      Except.ok (some (0, Decision.BARRED,
        some ⟨1, 1, 0, "310260", "LTE", 66486, 100, 2, false⟩)) ∧
    (⟨1, 1, 0, "310260", "LTE", 66486, 100, 2, false⟩ : CellTower).rogue = false ∧
    (⟨1, 1, 0, "310260", "LTE", 66486, 100, 2, false⟩ : CellTower).id ∈
      cal_window (initEngine ⟨[], [⟨0, (0, 0), (4, 0), {1}⟩], "310260"⟩
        [⟨0, 0, 0, "311480", "LTE", 1492, 100, 1, true⟩,
         ⟨1, 1, 0, "310260", "LTE", 66486, 100, 2, false⟩]).route.segments
      (initEngine ⟨[], [⟨0, (0, 0), (4, 0), {1}⟩], "310260"⟩
        [⟨0, 0, 0, "311480", "LTE", 1492, 100, 1, true⟩,
         ⟨1, 1, 0, "310260", "LTE", 66486, 100, 2, false⟩]).grace 0 :=
  C6_barred_reselection_trusted _ (0, 0) 1 0
    ⟨0, 0, 0, "311480", "LTE", 1492, 100, 1, true⟩
    ⟨1, 1, 0, "310260", "LTE", 66486, 100, 2, false⟩
    (by norm_num [initEngine]) rfl
    (by norm_num [nearest_tower, nearestGo, distSq, CellTower.pos, initEngine])
    (by decide) (by decide) rfl
    ⟨220, [⟨0, (0, 0), (4, 0), ∅⟩],
      by norm_num [initEngine, rebuild_cal, withinRadius, distSq, Segment.mid,
        CellTower.pos]⟩
    (by decide)

/-- Squared distance from `p` to the segment stored at position `i` of the
route (used to state the locator's contract). -/
def segDistSq (p : ℚ × ℚ) (segs : List Segment) (i : Nat) : ℚ :=
  projDistSq p (segs.getD i default).a (segs.getD i default).b

/-- Route well-formedness: every segment records its own position in the
route as its `idx` field (this is how `Route.from_polyline` builds them). -/
abbrev segsWF (segs : List Segment) : Prop :=
  ∀ i ∈ List.range segs.length, (segs.getD i default).idx = i

lemma segsWF_get {segs : List Segment} (hwf : segsWF segs) {s : Segment}
    (hs : s ∈ segs) : s.idx < segs.length ∧ segs.getD s.idx default = s := by
  obtain ⟨⟨i, hi⟩, hget⟩ := List.mem_iff_get.1 hs
  have hgd : segs.getD i default = s := by
    rw [List.getD_eq_getElem _ _ hi]
    simpa using hget
  have hidx : s.idx = i := by
    rw [← hgd]
    exact hwf i (List.mem_range.2 hi)
  rw [hidx]
  exact ⟨hi, hgd⟩

/-- The accumulator of the tuple sort keeps a possible value: the running
best or a list element. -/
lemma lexMinGo_mem (best : ℚ × Nat) (ys : List (ℚ × Nat)) :
    lexMinGo best ys = best ∨ lexMinGo best ys ∈ ys := by
  induction ys generalizing best with
  | nil => exact Or.inl rfl
  | cons y ys ih =>
    simp only [lexMinGo]
    rcases ih (if y.1 < best.1 ∨ (y.1 = best.1 ∧ y.2 < best.2) then y else best) with h | h
    · rw [h]
      split
      · exact Or.inr (List.mem_cons_self _ _)
      · exact Or.inl rfl
    · exact Or.inr (List.mem_cons_of_mem _ h)

/-- The first component of the tuple-sort minimum is a lower bound of all
first components. -/
lemma lexMinGo_fst_le (best : ℚ × Nat) (ys : List (ℚ × Nat)) :
    (lexMinGo best ys).1 ≤ best.1 ∧ ∀ y ∈ ys, (lexMinGo best ys).1 ≤ y.1 := by
  induction ys generalizing best with
  | nil => exact ⟨le_refl _, by simp⟩
  | cons y ys ih =>
    simp only [lexMinGo]
    by_cases hy : y.1 < best.1 ∨ (y.1 = best.1 ∧ y.2 < best.2)
    · rw [if_pos hy]
      obtain ⟨h1, h2⟩ := ih y
      have hyb : y.1 ≤ best.1 := by
        rcases hy with h | ⟨h, _⟩
        · exact h.le
        · exact h.le
      refine ⟨le_trans h1 hyb, ?_⟩
      intro z hz
      rcases List.mem_cons.1 hz with rfl | hz
      · exact h1
      · exact h2 z hz
    · rw [if_neg hy]
      obtain ⟨h1, h2⟩ := ih best
      push_neg at hy
      refine ⟨h1, ?_⟩
      intro z hz
      rcases List.mem_cons.1 hz with rfl | hz
      · exact le_trans h1 hy.1
      · exact h2 z hz

/-- C3: on a non-empty route the segment locator never fails; on the first
call ever (no prior resolved segment) it returns a segment at minimum
distance from the position, which the engine stores as current; on every
subsequent call (with an in-range stored index) it switches to the globally
nearest segment exactly when
`distance_to_new + hysteresis < distance_to_current` (the distances being
the real square roots of the embedded squared distances), and otherwise
returns the unchanged current index. -/
theorem C3_locate_segment (segs : List Segment) (hyst : ℚ) (lastIdx : Option Nat)
    (p : ℚ × ℚ) (hwf : segsWF segs) (hne : segs ≠ []) (hh : 0 ≤ hyst)
    (hlast : ∀ c, lastIdx = some c → c < segs.length) :
    ∃ i dmin, locate_segment segs hyst lastIdx p = some i ∧ i < segs.length ∧
      (∀ s ∈ segs, dmin ≤ projDistSq p s.a s.b) ∧
      (∃ s ∈ segs, projDistSq p s.a s.b = dmin) ∧
      (lastIdx = none → segDistSq p segs i = dmin) ∧
      (∀ cur, lastIdx = some cur →
        (Real.sqrt (dmin : ℝ) + (hyst : ℝ) <
            Real.sqrt ((segDistSq p segs cur : ℚ) : ℝ) →
          segDistSq p segs i = dmin) ∧
        (¬ Real.sqrt (dmin : ℝ) + (hyst : ℝ) <
            Real.sqrt ((segDistSq p segs cur : ℚ) : ℝ) →
          i = cur)) := by
  obtain ⟨s0, rest, rfl⟩ : ∃ s0 rest, segs = s0 :: rest := by
    cases segs with
    | nil => exact absurd rfl hne
    | cons a l => exact ⟨a, l, rfl⟩
  have hmmem : lexMinGo (projDistSq p s0.a s0.b, s0.idx)
        (rest.map fun s => (projDistSq p s.a s.b, s.idx)) ∈
      (s0 :: rest).map fun s => (projDistSq p s.a s.b, s.idx) := by
    rw [List.map_cons]
    rcases lexMinGo_mem (projDistSq p s0.a s0.b, s0.idx)
        (rest.map fun s => (projDistSq p s.a s.b, s.idx)) with h | h
    · rw [h]
      exact List.mem_cons_self _ _
    · exact List.mem_cons_of_mem _ h
  obtain ⟨sm, hsm, hfsm⟩ := List.mem_map.1 hmmem
  set m : ℚ × Nat := lexMinGo (projDistSq p s0.a s0.b, s0.idx)
    (rest.map fun s => (projDistSq p s.a s.b, s.idx)) with hmdef
  have hmin : ∀ s ∈ s0 :: rest, m.1 ≤ projDistSq p s.a s.b := by
    obtain ⟨h1, h2⟩ := lexMinGo_fst_le (projDistSq p s0.a s0.b, s0.idx)
      (rest.map fun s => (projDistSq p s.a s.b, s.idx))
    intro s hs
    rcases List.mem_cons.1 hs with rfl | hs
    · exact h1
    · exact h2 _ (List.mem_map_of_mem _ hs)
  have hm1 : projDistSq p sm.a sm.b = m.1 := by rw [← hfsm]
  have hm2 : sm.idx = m.2 := by rw [← hfsm]
  obtain ⟨hidx_lt, hgetD⟩ := segsWF_get hwf hsm
  have hm2lt : m.2 < (s0 :: rest).length := by rw [← hm2]; exact hidx_lt
  have hgm : (s0 :: rest).getD m.2 default = sm := by rw [← hm2]; exact hgetD
  have hsegm : segDistSq p (s0 :: rest) m.2 = m.1 := by
    unfold segDistSq
    rw [hgm, hm1]
  have hattain : ∃ s ∈ s0 :: rest, projDistSq p s.a s.b = m.1 := ⟨sm, hsm, hm1⟩
  cases hli : lastIdx with
  | none =>
    refine ⟨m.2, m.1, ?_, hm2lt, hmin, hattain, fun _ => hsegm, ?_⟩
    · show locate_segment (s0 :: rest) hyst none p = some m.2
      rw [hmdef]
      rfl
    · intro cur hcur
      exact absurd hcur (by simp)
  | some cur =>
    have hcur_lt : cur < (s0 :: rest).length := hlast cur hli
    have hB := sqrtAddLt_iff_sqrt (segDistSq p (s0 :: rest) m.2) hyst
      (segDistSq p (s0 :: rest) cur)
      (by unfold segDistSq; exact projDistSq_nonneg _ _ _) hh
    rw [hsegm] at hB
    have hloc_eval : locate_segment (s0 :: rest) hyst (some cur) p =
        if sqrtAddLt (segDistSq p (s0 :: rest) m.2) hyst (segDistSq p (s0 :: rest) cur)
        then some m.2 else some cur := by
      unfold locate_segment
      rw [List.map_cons]
      show (match some m with
        | none => none
        | some nearest =>
          match some cur with
          | none => some nearest.2
          | some cur =>
            if cur < (s0 :: rest).length then
              if nearest.2 < (s0 :: rest).length then
                if sqrtAddLt
                    (projDistSq p ((s0 :: rest).getD nearest.2 default).a
                      ((s0 :: rest).getD nearest.2 default).b) hyst
                    (projDistSq p ((s0 :: rest).getD cur default).a
                      ((s0 :: rest).getD cur default).b)
                then some nearest.2 else some cur
              else none
            else none) = _
      dsimp only
      rw [if_pos hcur_lt, if_pos hm2lt]
      rfl
    by_cases hb : sqrtAddLt (segDistSq p (s0 :: rest) m.2) hyst
        (segDistSq p (s0 :: rest) cur)
    · rw [if_pos hb] at hloc_eval
      refine ⟨m.2, m.1, hloc_eval, hm2lt, hmin, hattain, by simp [hli], ?_⟩
      intro cur' hcur'
      obtain rfl : cur' = cur := by
        injection hcur' with h
        exact h.symm
      constructor
      · intro _
        exact hsegm
      · intro hnot
        rw [hsegm] at hb
        exact absurd (hB.1 hb) hnot
    · rw [if_neg hb] at hloc_eval
      refine ⟨cur, m.1, hloc_eval, hcur_lt, hmin, hattain, by simp [hli], ?_⟩
      intro cur' hcur'
      obtain rfl : cur' = cur := by
        injection hcur' with h
        exact h.symm
      constructor
      · intro hlt
        rw [hsegm] at hb
        exact absurd (hB.2 hlt) hb
      · intro _
        rfl

/-- Witness for C3 at a concrete two-segment route on the first call. -/
theorem C3_locate_segment_witness :
    ∃ i dmin,
      locate_segment [⟨0, (0, 0), (4, 0), ∅⟩, ⟨1, (4, 0), (8, 0), ∅⟩] 40 none (0, 0)
        = some i ∧
      i < ([⟨0, (0, 0), (4, 0), ∅⟩, (⟨1, (4, 0), (8, 0), ∅⟩ : Segment)]).length ∧
      (∀ s ∈ [⟨0, (0, 0), (4, 0), ∅⟩, (⟨1, (4, 0), (8, 0), ∅⟩ : Segment)],
        dmin ≤ projDistSq (0, 0) s.a s.b) ∧
      (∃ s ∈ [⟨0, (0, 0), (4, 0), ∅⟩, (⟨1, (4, 0), (8, 0), ∅⟩ : Segment)],
        projDistSq (0, 0) s.a s.b = dmin) ∧
      ((none : Option Nat) = none →
        segDistSq (0, 0) [⟨0, (0, 0), (4, 0), ∅⟩, ⟨1, (4, 0), (8, 0), ∅⟩] i = dmin) ∧
      (∀ cur, (none : Option Nat) = some cur →
        (Real.sqrt (dmin : ℝ) + ((40 : ℚ) : ℝ) <
            Real.sqrt ((segDistSq (0, 0)
              [⟨0, (0, 0), (4, 0), ∅⟩, ⟨1, (4, 0), (8, 0), ∅⟩] cur : ℚ) : ℝ) →
          segDistSq (0, 0) [⟨0, (0, 0), (4, 0), ∅⟩, ⟨1, (4, 0), (8, 0), ∅⟩] i = dmin) ∧
        (¬ Real.sqrt (dmin : ℝ) + ((40 : ℚ) : ℝ) <
            Real.sqrt ((segDistSq (0, 0)
              [⟨0, (0, 0), (4, 0), ∅⟩, ⟨1, (4, 0), (8, 0), ∅⟩] cur : ℚ) : ℝ) →
          i = cur)) :=
  C3_locate_segment _ 40 none (0, 0) (by decide) (List.cons_ne_nil _ _)
    (by norm_num) (fun c hc => by cases hc)

end RLCE
